import Mathlib

/-!
Verification development for the termingo subprocess I/O bridge
(`src/main.go`).  Strings are modelled as lists of characters, tcell
styles as a record of foreground/background colors and attribute flags,
and each Go function of the core is translated into an executable Lean
definition bearing the same name.
-/

namespace Termingo

/-- Characters of a Go string (one entry per rune). -/
abbrev Chars := List Char

/-- Model of `tcell.Color`: the zero value `ColorDefault`, the named
colors used by the `ansiColors` / `ansiBgColors` tables, and
`tcell.PaletteColor(n)` values. -/
inductive Color where
  | default
  | black
  | red
  | green
  | yellow
  | blue
  | darkMagenta
  | teal
  | white
  | gray
  | palette (n : Nat)
deriving DecidableEq, Repr

/-- Model of `tcell.Style`: foreground, background and the three
attribute flags the program manipulates. -/
structure Style where
  fg : Color := .default
  bg : Color := .default
  bold : Bool := false
  italic : Bool := false
  underline : Bool := false
deriving DecidableEq, Repr

def Style.Foreground (s : Style) (c : Color) : Style := { s with fg := c }

def Style.Background (s : Style) (c : Color) : Style := { s with bg := c }

def Style.Bold (s : Style) (b : Bool) : Style := { s with bold := b }

def Style.Italic (s : Style) (b : Bool) : Style := { s with italic := b }

def Style.Underline (s : Style) (b : Bool) : Style := { s with underline := b }

/-- The `tcell.StyleDefault` starting style. -/
def styleDefault : Style := {}

/-- Model of `LineSegment` (main.go lines 93-96). -/
structure LineSegment where
  Text : Chars
  Style : Style
deriving DecidableEq, Repr

/-- The `ansiColors` map (main.go lines 99-116); a missing key yields
Go's zero value `ColorDefault`. -/
def ansiColors (code : Nat) : Color :=
  if code = 30 then .black
  else if code = 31 then .red
  else if code = 32 then .green
  else if code = 33 then .yellow
  else if code = 34 then .blue
  else if code = 35 then .darkMagenta
  else if code = 36 then .teal
  else if code = 37 then .white
  else if code = 90 then .gray
  else if code = 91 then .red
  else if code = 92 then .green
  else if code = 93 then .yellow
  else if code = 94 then .blue
  else if code = 95 then .darkMagenta
  else if code = 96 then .teal
  else if code = 97 then .white
  else .default

/-- The `ansiBgColors` map (main.go lines 118-135). -/
def ansiBgColors (code : Nat) : Color :=
  if code = 40 then .black
  else if code = 41 then .red
  else if code = 42 then .green
  else if code = 43 then .yellow
  else if code = 44 then .blue
  else if code = 45 then .darkMagenta
  else if code = 46 then .teal
  else if code = 47 then .white
  else if code = 100 then .gray
  else if code = 101 then .red
  else if code = 102 then .green
  else if code = 103 then .yellow
  else if code = 104 then .blue
  else if code = 105 then .darkMagenta
  else if code = 106 then .teal
  else if code = 107 then .white
  else .default

/-- The escape character `\033`. -/
def esc : Char := '\x1b'

/-- Character class `[\d;]` of the SGR regex in `parseANSI`. -/
def isDigitSemi (c : Char) : Bool := c.isDigit || c = ';'

/-- Decide whether `s` begins with a match of the Go regex
`\033\[([\d;]*)m` (main.go line 991); on success return the captured
parameter characters and the remainder after the final `m`.  Go's
regexp engine matches here exactly when ESC `[` is followed by the
maximal run of `[0-9;]` characters and then `m`, because no shorter
run can be followed by `m` (the run's own characters are never `m`). -/
def matchSGRAt (s : Chars) : Option (Chars × Chars) :=
  match s with
  | c1 :: c2 :: t =>
    if c1 = esc ∧ c2 = '[' then
      match t.dropWhile isDigitSemi with
      | c :: r => if c = 'm' then some (t.takeWhile isDigitSemi, r) else none
      | [] => none
    else none
  | _ => none

theorem matchSGRAt_decomp {s p r : Chars} (h : matchSGRAt s = some (p, r)) :
    s = esc :: '[' :: (p ++ 'm' :: r) := by
  match s with
  | [] => simp [matchSGRAt] at h
  | [c] => simp [matchSGRAt] at h
  | c1 :: c2 :: t =>
    simp only [matchSGRAt] at h
    split at h
    next hc =>
      split at h
      next c r' heq =>
        split at h
        next hm =>
          simp only [Option.some.injEq, Prod.mk.injEq] at h
          obtain ⟨hp, hr⟩ := h
          obtain ⟨h1, h2⟩ := hc
          subst h1; subst h2; subst hp; subst hr; subst hm
          have hsplit := List.takeWhile_append_dropWhile (p := isDigitSemi) (l := t)
          rw [heq] at hsplit
          exact congrArg (fun x => esc :: '[' :: x) hsplit.symm
        next hm => simp at h
      next heq => simp at h
    next hc => simp at h

theorem matchSGRAt_length {s p r : Chars} (h : matchSGRAt s = some (p, r)) :
    r.length < s.length := by
  have hd := matchSGRAt_decomp h
  subst hd
  simp only [List.length_cons, List.length_append]
  omega

/-- Model of Go's `strings.Split` with a one-character separator. -/
def splitOnChar (sep : Char) : Chars → List Chars
  | [] => [[]]
  | c :: t =>
    if c = sep then [] :: splitOnChar sep t
    else
      match splitOnChar sep t with
      | [] => [[c]]
      | l :: ls => (c :: l) :: ls

/-- Convert a run of decimal digit characters to a number; the empty
run yields `0`.  Models the `fmt.Sscanf(part, "%d", &code)` call in
`parseANSICodes` (parts are always pure digit runs there, and an empty
part is mapped to `0` beforehand). -/
def digitRunToNat (s : Chars) : Nat :=
  s.foldl (fun a c => a * 10 + (c.toNat - 48)) 0

/-- Model of `parseANSICodes` (main.go lines 1033-1046): split the
captured parameter characters on `;` and read each part as a decimal
number, with empty parts becoming `0`. -/
def parseANSICodes (codeStr : Chars) : List Nat :=
  (splitOnChar ';' codeStr).map digitRunToNat

/-- The local accumulator variables of `applyANSICodes`
(main.go lines 1048-1055). -/
structure SGRState where
  style : Style
  fgColor : Color
  bgColor : Color
  bold : Bool
  underline : Bool
  italic : Bool
deriving DecidableEq, Repr

/-- The `for i < len(codes)` loop of `applyANSICodes` (main.go lines
1056-1102).  Skipping the list head models `i++`; the Go guard
`code == 38 && i+2 < len(codes) && codes[i+1] == 5` is exactly the
pattern `38 :: 5 :: n :: rest2` (hoisted to the top of the match, which
is equivalent because codes 38 and 48 match no other switch case), and
dropping the two consumed parameters models `i += 2`.  A 38 or 48 whose
lookahead fails falls through every switch case and is skipped, like
any other unknown code. -/
def applyLoop (baseStyle : Style) : List Nat → SGRState → SGRState
  | [], st => st
  | 38 :: 5 :: n :: rest2, st =>
    applyLoop baseStyle rest2 { st with fgColor := .palette n }
  | 48 :: 5 :: n :: rest2, st =>
    applyLoop baseStyle rest2 { st with bgColor := .palette n }
  | code :: rest, st =>
    if code = 0 then
      applyLoop baseStyle rest ⟨baseStyle, .default, .default, false, false, false⟩
    else if code = 1 then applyLoop baseStyle rest { st with bold := true }
    else if code = 3 then applyLoop baseStyle rest { st with italic := true }
    else if code = 4 then applyLoop baseStyle rest { st with underline := true }
    else if code = 22 then applyLoop baseStyle rest { st with bold := false }
    else if code = 23 then applyLoop baseStyle rest { st with italic := false }
    else if code = 24 then applyLoop baseStyle rest { st with underline := false }
    else if 30 ≤ code ∧ code ≤ 37 then
      applyLoop baseStyle rest { st with fgColor := ansiColors code }
    else if 90 ≤ code ∧ code ≤ 97 then
      applyLoop baseStyle rest { st with fgColor := ansiColors code }
    else if 40 ≤ code ∧ code ≤ 47 then
      applyLoop baseStyle rest { st with bgColor := ansiBgColors code }
    else if 100 ≤ code ∧ code ≤ 107 then
      applyLoop baseStyle rest { st with bgColor := ansiBgColors code }
    else applyLoop baseStyle rest st

theorem applyLoop_nil (b : Style) (st : SGRState) : applyLoop b [] st = st := rfl

theorem applyLoop_zero (b : Style) (rest : List Nat) (st : SGRState) :
    applyLoop b (0 :: rest) st =
      applyLoop b rest ⟨b, .default, .default, false, false, false⟩ := by
  rw [applyLoop.eq_def]; norm_num

theorem applyLoop_one (b : Style) (rest : List Nat) (st : SGRState) :
    applyLoop b (1 :: rest) st = applyLoop b rest { st with bold := true } := by
  rw [applyLoop.eq_def]; norm_num

theorem applyLoop_three (b : Style) (rest : List Nat) (st : SGRState) :
    applyLoop b (3 :: rest) st = applyLoop b rest { st with italic := true } := by
  rw [applyLoop.eq_def]; norm_num

theorem applyLoop_four (b : Style) (rest : List Nat) (st : SGRState) :
    applyLoop b (4 :: rest) st = applyLoop b rest { st with underline := true } := by
  rw [applyLoop.eq_def]; norm_num

theorem applyLoop_22 (b : Style) (rest : List Nat) (st : SGRState) :
    applyLoop b (22 :: rest) st = applyLoop b rest { st with bold := false } := by
  rw [applyLoop.eq_def]; norm_num

theorem applyLoop_23 (b : Style) (rest : List Nat) (st : SGRState) :
    applyLoop b (23 :: rest) st = applyLoop b rest { st with italic := false } := by
  rw [applyLoop.eq_def]; norm_num

theorem applyLoop_24 (b : Style) (rest : List Nat) (st : SGRState) :
    applyLoop b (24 :: rest) st = applyLoop b rest { st with underline := false } := by
  rw [applyLoop.eq_def]; norm_num

theorem applyLoop_fg (b : Style) (code : Nat) (rest : List Nat) (st : SGRState)
    (h : (30 ≤ code ∧ code ≤ 37) ∨ (90 ≤ code ∧ code ≤ 97)) :
    applyLoop b (code :: rest) st =
      applyLoop b rest { st with fgColor := ansiColors code } := by
  obtain ⟨h1, h2⟩ | ⟨h1, h2⟩ := h <;> interval_cases code <;>
    (rw [applyLoop.eq_def]; norm_num)

theorem applyLoop_bg (b : Style) (code : Nat) (rest : List Nat) (st : SGRState)
    (h : (40 ≤ code ∧ code ≤ 47) ∨ (100 ≤ code ∧ code ≤ 107)) :
    applyLoop b (code :: rest) st =
      applyLoop b rest { st with bgColor := ansiBgColors code } := by
  obtain ⟨h1, h2⟩ | ⟨h1, h2⟩ := h <;> interval_cases code <;>
    (rw [applyLoop.eq_def]; norm_num)

theorem applyLoop_38_full (b : Style) (n : Nat) (rest2 : List Nat) (st : SGRState) :
    applyLoop b (38 :: 5 :: n :: rest2) st =
      applyLoop b rest2 { st with fgColor := .palette n } := by
  rw [applyLoop.eq_def]

theorem applyLoop_38_not5 (b : Style) (five n : Nat) (rest2 : List Nat) (st : SGRState)
    (h : five ≠ 5) :
    applyLoop b (38 :: five :: n :: rest2) st =
      applyLoop b (five :: n :: rest2) st := by
  rw [applyLoop.eq_def]
  norm_num [h]

theorem applyLoop_38_two (b : Style) (p : Nat) (st : SGRState) :
    applyLoop b [38, p] st = applyLoop b [p] st := by
  rw [applyLoop.eq_def]
  split <;> rename_i heq
  · exact absurd heq (by simp)
  · exact absurd heq (by simp)
  · exact absurd heq (by simp)
  · injection heq with h1 h2
    subst h1; subst h2
    norm_num

theorem applyLoop_38_one (b : Style) (st : SGRState) :
    applyLoop b [38] st = applyLoop b [] st := by
  rw [applyLoop.eq_def]
  split <;> rename_i heq
  · exact absurd heq (by simp)
  · exact absurd heq (by simp)
  · exact absurd heq (by simp)
  · injection heq with h1 h2
    subst h1; subst h2
    norm_num

theorem applyLoop_48_full (b : Style) (n : Nat) (rest2 : List Nat) (st : SGRState) :
    applyLoop b (48 :: 5 :: n :: rest2) st =
      applyLoop b rest2 { st with bgColor := .palette n } := by
  rw [applyLoop.eq_def]

theorem applyLoop_48_not5 (b : Style) (five n : Nat) (rest2 : List Nat) (st : SGRState)
    (h : five ≠ 5) :
    applyLoop b (48 :: five :: n :: rest2) st =
      applyLoop b (five :: n :: rest2) st := by
  rw [applyLoop.eq_def]
  norm_num [h]

theorem applyLoop_48_two (b : Style) (p : Nat) (st : SGRState) :
    applyLoop b [48, p] st = applyLoop b [p] st := by
  rw [applyLoop.eq_def]
  split <;> rename_i heq
  · exact absurd heq (by simp)
  · exact absurd heq (by simp)
  · exact absurd heq (by simp)
  · injection heq with h1 h2
    subst h1; subst h2
    norm_num

theorem applyLoop_48_one (b : Style) (st : SGRState) :
    applyLoop b [48] st = applyLoop b [] st := by
  rw [applyLoop.eq_def]
  split <;> rename_i heq
  · exact absurd heq (by simp)
  · exact absurd heq (by simp)
  · exact absurd heq (by simp)
  · injection heq with h1 h2
    subst h1; subst h2
    norm_num

theorem applyLoop_skip (b : Style) (code : Nat) (rest : List Nat) (st : SGRState)
    (hno38 : ∀ (n : Nat) (rest2 : List Nat), code = 38 → rest = 5 :: n :: rest2 → False)
    (hno48 : ∀ (n : Nat) (rest2 : List Nat), code = 48 → rest = 5 :: n :: rest2 → False)
    (h0 : code ≠ 0) (h1 : code ≠ 1) (h3 : code ≠ 3) (h4 : code ≠ 4)
    (h22 : code ≠ 22) (h23 : code ≠ 23) (h24 : code ≠ 24)
    (hfg1 : ¬(30 ≤ code ∧ code ≤ 37)) (hfg2 : ¬(90 ≤ code ∧ code ≤ 97))
    (hbg1 : ¬(40 ≤ code ∧ code ≤ 47)) (hbg2 : ¬(100 ≤ code ∧ code ≤ 107)) :
    applyLoop b (code :: rest) st = applyLoop b rest st := by
  rw [applyLoop.eq_def]
  split <;> rename_i heq
  · exact absurd heq (by simp)
  · injection heq with e1 e2
    exact (hno38 _ _ e1 e2).elim
  · injection heq with e1 e2
    exact (hno48 _ _ e1 e2).elim
  · injection heq with e1 e2
    subst e1; subst e2
    split_ifs <;> first | rfl | omega

theorem applyLoop_unknown (b : Style) (code : Nat) (rest : List Nat) (st : SGRState)
    (h : code ≠ 0 ∧ code ≠ 1 ∧ code ≠ 3 ∧ code ≠ 4 ∧ code ≠ 22 ∧ code ≠ 23 ∧
      code ≠ 24 ∧ ¬(30 ≤ code ∧ code ≤ 37) ∧ ¬(90 ≤ code ∧ code ≤ 97) ∧
      ¬(40 ≤ code ∧ code ≤ 47) ∧ ¬(100 ≤ code ∧ code ≤ 107) ∧ code ≠ 38 ∧
      code ≠ 48) :
    applyLoop b (code :: rest) st = applyLoop b rest st := by
  obtain ⟨h0, h1, h3, h4, h22, h23, h24, hfg1, hfg2, hbg1, hbg2, h38, h48⟩ := h
  exact applyLoop_skip b code rest st (fun _ _ e _ => h38 e) (fun _ _ e _ => h48 e)
    h0 h1 h3 h4 h22 h23 h24 hfg1 hfg2 hbg1 hbg2

/-- The running `style` variable of `applyANSICodes` is only ever written
by the reset case (back to `baseStyle`), so after the loop it is either
the initial state's style or the base style. -/
theorem applyLoop_style (base : Style) :
    ∀ (cs : List Nat) (st : SGRState),
      (applyLoop base cs st).style = st.style ∨ (applyLoop base cs st).style = base := by
  intro cs st
  induction cs, st using applyLoop.induct base with
  | case1 st => rw [applyLoop_nil]; left; rfl
  | case2 n rest2 st ih => rw [applyLoop_38_full]; exact ih
  | case3 n rest2 st ih => rw [applyLoop_48_full]; exact ih
  | case4 rest st hno38 hno48 ih =>
    rw [applyLoop_zero]
    rcases ih with h | h <;> right <;> exact h
  | case5 rest st hno38 hno48 h0 ih =>
    rw [applyLoop_one]; exact ih
  | case6 rest st hno38 hno48 h0 h1 ih =>
    rw [applyLoop_three]; exact ih
  | case7 rest st hno38 hno48 h0 h1 h3 ih =>
    rw [applyLoop_four]; exact ih
  | case8 rest st hno38 hno48 h0 h1 h3 h4 ih =>
    rw [applyLoop_22]; exact ih
  | case9 rest st hno38 hno48 h0 h1 h3 h4 h22 ih =>
    rw [applyLoop_23]; exact ih
  | case10 rest st hno38 hno48 h0 h1 h3 h4 h22 h23 ih =>
    rw [applyLoop_24]; exact ih
  | case11 code rest st hno38 hno48 h0 h1 h3 h4 h22 h23 h24 hc ih =>
    rw [applyLoop_fg base code rest st (Or.inl hc)]; exact ih
  | case12 code rest st hno38 hno48 h0 h1 h3 h4 h22 h23 h24 hr1 hc ih =>
    rw [applyLoop_fg base code rest st (Or.inr hc)]; exact ih
  | case13 code rest st hno38 hno48 h0 h1 h3 h4 h22 h23 h24 hr1 hr2 hc ih =>
    rw [applyLoop_bg base code rest st (Or.inl hc)]; exact ih
  | case14 code rest st hno38 hno48 h0 h1 h3 h4 h22 h23 h24 hr1 hr2 hr3 hc ih =>
    rw [applyLoop_bg base code rest st (Or.inr hc)]; exact ih
  | case15 code rest st hno38 hno48 h0 h1 h3 h4 h22 h23 h24 hr1 hr2 hr3 hr4 ih =>
    rw [applyLoop_skip base code rest st hno38 hno48 h0 h1 h3 h4 h22 h23 h24 hr1 hr2 hr3 hr4]
    exact ih

/-- Model of `applyANSICodes` (main.go lines 1048-1124): run the loop,
then apply the accumulated colors and attributes on top of the running
style. -/
def applyANSICodes (codes : List Nat) (baseStyle : Style) : Style :=
  let st := applyLoop baseStyle codes ⟨baseStyle, .default, .default, false, false, false⟩
  let s1 := if st.fgColor ≠ .default then st.style.Foreground st.fgColor else st.style
  let s2 := if st.bgColor ≠ .default then s1.Background st.bgColor else s1
  let s3 := if st.bold then s2.Bold true else s2
  let s4 := if st.underline then s3.Underline true else s3
  if st.italic then s4.Italic true else s4

/-- Attribute flags are only ever added on top of the base style: if the
base style has bold set, the decoded style has bold set no matter which
SGR parameters are applied. -/
theorem applyANSICodes_bold_mono (codes : List Nat) (b : Style) (h : b.bold = true) :
    (applyANSICodes codes b).bold = true := by
  have hst := applyLoop_style b codes ⟨b, .default, .default, false, false, false⟩
  have hstyle : (applyLoop b codes ⟨b, .default, .default, false, false, false⟩).style = b := by
    rcases hst with h' | h' <;> simpa using h'
  simp only [applyANSICodes]
  split_ifs <;>
    simp_all [Style.Foreground, Style.Background, Style.Bold, Style.Underline, Style.Italic]

/-- One scanning pass of `parseANSI` (main.go lines 999-1028): `acc`
holds the reversed plain-text run accumulated since the last match,
`cur` the currently accumulated style.  A gap segment is emitted only
when nonempty, mirroring the `match[0] > lastIndex` and
`lastIndex < len(text)` guards. -/
def parseANSIAux (base : Style) : Style → Chars → Chars → List LineSegment
  | cur, acc, [] => if acc.isEmpty then [] else [⟨acc.reverse, cur⟩]
  | cur, acc, c :: t =>
    match h : matchSGRAt (c :: t) with
    | some (params, rest) =>
      (if acc.isEmpty then [] else [⟨acc.reverse, cur⟩]) ++
        parseANSIAux base
          (if params.isEmpty then base else applyANSICodes (parseANSICodes params) base)
          [] rest
    | none => parseANSIAux base cur (c :: acc) t
termination_by _ _ s => s.length
decreasing_by
  · exact matchSGRAt_length h
  · simp

/-- Whether the SGR regex matches anywhere in the text (the
`len(matches) == 0` test of main.go line 994). -/
def hasSGR : Chars → Bool
  | [] => false
  | c :: t => (matchSGRAt (c :: t)).isSome || hasSGR t

/-- Model of `parseANSI` (main.go lines 986-1031).  When the regex has
no match the whole text is returned as a single segment with the base
style (even when empty); otherwise the scanning loop runs. -/
def parseANSI (text : Chars) (baseStyle : Style) : List LineSegment :=
  if hasSGR text then parseANSIAux baseStyle baseStyle [] text
  else [⟨text, baseStyle⟩]

/-- Modelled from the spec: the input with every SGR escape sequence
`ESC '[' [0-9;]* 'm'` removed; the comparison point for the decoder
losslessness property. -/
def specRemoveSGR : Chars → Chars
  | [] => []
  | c :: t =>
    match h : matchSGRAt (c :: t) with
    | some (_, rest) => specRemoveSGR rest
    | none => c :: specRemoveSGR t
termination_by s => s.length
decreasing_by
  · exact matchSGRAt_length h
  · simp

/-- Concatenation of the `Text` fields of a list of segments. -/
def segmentsText (segs : List LineSegment) : Chars :=
  segs.foldr (fun s acc => s.Text ++ acc) []

theorem segmentsText_append (a b : List LineSegment) :
    segmentsText (a ++ b) = segmentsText a ++ segmentsText b := by
  induction a with
  | nil => simp [segmentsText]
  | cons x xs ih => simp [segmentsText, List.foldr_cons] at ih ⊢; simp [ih]

theorem specRemoveSGR_nil : specRemoveSGR [] = [] := by
  rw [specRemoveSGR]

theorem specRemoveSGR_cons_some {c : Char} {t p rest : Chars}
    (hm : matchSGRAt (c :: t) = some (p, rest)) :
    specRemoveSGR (c :: t) = specRemoveSGR rest := by
  rw [specRemoveSGR]
  split
  next p' r' heq =>
    rw [hm] at heq
    simp only [Option.some.injEq, Prod.mk.injEq] at heq
    rw [heq.2]
  next heq => rw [hm] at heq; simp at heq

theorem specRemoveSGR_cons_none {c : Char} {t : Chars}
    (hm : matchSGRAt (c :: t) = none) :
    specRemoveSGR (c :: t) = c :: specRemoveSGR t := by
  rw [specRemoveSGR]
  split
  next p' r' heq => rw [hm] at heq; simp at heq
  next heq => rfl

theorem parseANSIAux_nil (base cur : Style) (acc : Chars) :
    parseANSIAux base cur acc [] =
      if acc.isEmpty then [] else [⟨acc.reverse, cur⟩] := by
  rw [parseANSIAux]

theorem parseANSIAux_cons_some (base cur : Style) (acc : Chars)
    {c : Char} {t params rest : Chars}
    (hm : matchSGRAt (c :: t) = some (params, rest)) :
    parseANSIAux base cur acc (c :: t) =
      (if acc.isEmpty then [] else [⟨acc.reverse, cur⟩]) ++
        parseANSIAux base
          (if params.isEmpty then base else applyANSICodes (parseANSICodes params) base)
          [] rest := by
  rw [parseANSIAux]
  split
  next p' r' heq =>
    rw [hm] at heq
    simp only [Option.some.injEq, Prod.mk.injEq] at heq
    rw [heq.1, heq.2]
  next heq => rw [hm] at heq; simp at heq

theorem parseANSIAux_cons_none (base cur : Style) (acc : Chars)
    {c : Char} {t : Chars} (hm : matchSGRAt (c :: t) = none) :
    parseANSIAux base cur acc (c :: t) = parseANSIAux base cur (c :: acc) t := by
  rw [parseANSIAux]
  split
  next p' r' heq => rw [hm] at heq; simp at heq
  next heq => rfl

theorem specRemoveSGR_cons (c : Char) (t : Chars) :
    specRemoveSGR (c :: t) =
      match matchSGRAt (c :: t) with
      | some (_, rest) => specRemoveSGR rest
      | none => c :: specRemoveSGR t := by
  cases hm : matchSGRAt (c :: t) with
  | some pr => obtain ⟨p, r⟩ := pr; rw [specRemoveSGR_cons_some hm]
  | none => rw [specRemoveSGR_cons_none hm]

theorem parseANSIAux_cons (base cur : Style) (acc : Chars) (c : Char) (t : Chars) :
    parseANSIAux base cur acc (c :: t) =
      match matchSGRAt (c :: t) with
      | some (params, rest) =>
        (if acc.isEmpty then [] else [⟨acc.reverse, cur⟩]) ++
          parseANSIAux base
            (if params.isEmpty then base else applyANSICodes (parseANSICodes params) base)
            [] rest
      | none => parseANSIAux base cur (c :: acc) t := by
  cases hm : matchSGRAt (c :: t) with
  | some pr =>
    obtain ⟨p, r⟩ := pr
    rw [parseANSIAux_cons_some base cur acc hm]
  | none => rw [parseANSIAux_cons_none base cur acc hm]

theorem specRemoveSGR_of_not_hasSGR :
    ∀ s : Chars, hasSGR s = false → specRemoveSGR s = s := by
  intro s
  induction s with
  | nil => intro _; exact specRemoveSGR_nil
  | cons c t ih =>
    intro hfalse
    simp only [hasSGR, Bool.or_eq_false_iff] at hfalse
    have hnone : matchSGRAt (c :: t) = none := by
      cases hmm : matchSGRAt (c :: t) <;> simp_all
    rw [specRemoveSGR_cons_none hnone, ih hfalse.2]

theorem parseANSIAux_text (base : Style) :
    ∀ (n : Nat) (s : Chars), s.length ≤ n → ∀ (cur : Style) (acc : Chars),
      segmentsText (parseANSIAux base cur acc s) = acc.reverse ++ specRemoveSGR s := by
  intro n
  induction n with
  | zero =>
    intro s hs cur acc
    have hnil : s = [] := by simpa using hs
    subst hnil
    rw [parseANSIAux_nil, specRemoveSGR_nil]
    by_cases ha : acc.isEmpty = true <;> simp_all [segmentsText]
  | succ n ih =>
    intro s hs cur acc
    cases s with
    | nil =>
      rw [parseANSIAux_nil, specRemoveSGR_nil]
      by_cases ha : acc.isEmpty = true <;> simp_all [segmentsText]
    | cons c t =>
      cases hm : matchSGRAt (c :: t) with
      | some pr =>
        obtain ⟨params, rest⟩ := pr
        rw [parseANSIAux_cons_some base cur acc hm, specRemoveSGR_cons_some hm,
          segmentsText_append]
        have hlen : rest.length ≤ n := by
          have hlt := matchSGRAt_length hm
          simp only [List.length_cons] at hlt hs
          omega
        rw [ih rest hlen _ []]
        by_cases ha : acc.isEmpty = true <;> simp_all [segmentsText]
      | none =>
        rw [parseANSIAux_cons_none base cur acc hm, specRemoveSGR_cons_none hm]
        have hlen : t.length ≤ n := by
          simp only [List.length_cons] at hs
          omega
        rw [ih t hlen cur (c :: acc)]
        simp

/-- C1 — Decoder losslessness: for every input string and base style,
concatenating the `Text` fields of all segments returned by `parseANSI`
yields exactly the input with the SGR escape sequences
(ESC `[` params `m`) removed; no plain-text character is dropped or
duplicated. -/
theorem decoder_lossless (s : Chars) (base : Style) :
    segmentsText (parseANSI s base) = specRemoveSGR s := by
  unfold parseANSI
  cases hs : hasSGR s with
  | true =>
    simpa using parseANSIAux_text base s.length s (Nat.le_refl _) base []
  | false =>
    simp only [Bool.false_eq_true, if_false]
    rw [specRemoveSGR_of_not_hasSGR s hs]
    simp [segmentsText]

/-- C6 — counterexample to the claim as stated: with a base style whose
bold flag is set, the text following SGR code 22 is still rendered bold;
parameter 22 does not clear an attribute inherited from the base
style. -/
theorem attr_codes_counterexample :
    parseANSI ['\x1b', '[', '2', '2', 'm', 'X'] { styleDefault with bold := true } =
        [⟨['X'], { styleDefault with bold := true }⟩] ∧
      ({ styleDefault with bold := true } : Style).bold = true := by
  constructor
  · simp [parseANSI, hasSGR, matchSGRAt, esc, isDigitSemi, parseANSIAux_cons,
      parseANSIAux_nil, applyANSICodes, applyLoop_22, applyLoop_nil, parseANSICodes,
      splitOnChar, digitRunToNat, styleDefault]
  · rfl

/-- C6 (amended) — parameters 1, 3, 4 set the bold, italic, underline
flags and 22, 23, 24 clear the flag tracked within the current parameter
list; the tracked flags are applied additively on top of the base style,
so 22/23/24 cancel a flag set earlier in the same parameter list but
never clear a flag inherited from the base style (whose bold flag
survives every parameter list). -/
theorem attr_codes (b : Style) :
    applyANSICodes [1] b = b.Bold true ∧ applyANSICodes [3] b = b.Italic true ∧
      applyANSICodes [4] b = b.Underline true ∧
      applyANSICodes [1, 22] b = b ∧ applyANSICodes [3, 23] b = b ∧
      applyANSICodes [4, 24] b = b ∧
      applyANSICodes [22] b = b ∧ applyANSICodes [23] b = b ∧
      applyANSICodes [24] b = b ∧
      (b.bold = true → ∀ codes : List Nat, (applyANSICodes codes b).bold = true) := by
  refine ⟨?_, ?_, ?_, ?_, ?_, ?_, ?_, ?_, ?_, ?_⟩ <;>
    first
    | (intro hb codes; exact applyANSICodes_bold_mono codes b hb)
    | simp [applyANSICodes, applyLoop_one, applyLoop_three, applyLoop_four, applyLoop_22,
        applyLoop_23, applyLoop_24, applyLoop_nil, Style.Bold, Style.Italic, Style.Underline]

/-- Witness for `attr_codes` at a concrete bold base style. -/
theorem attr_codes_witness :
    applyANSICodes [22] (styleDefault.Bold true) = styleDefault.Bold true ∧
      (applyANSICodes [40] (styleDefault.Bold true)).bold = true := by
  constructor
  · exact (attr_codes (styleDefault.Bold true)).2.2.2.2.2.2.1
  · exact (attr_codes (styleDefault.Bold true)).2.2.2.2.2.2.2.2.2 rfl [40]

/-- C7 — parameter 38 (resp. 48) followed by 5 and a third parameter N
sets the indexed 256-color foreground (resp. background) to palette
entry N and consumes the two following parameters atomically, so they
are never reinterpreted as standalone codes; when the second following
parameter is missing the code is ignored and scanning resumes at the
next parameter. -/
theorem extended_color_params :
    (∀ (b : Style) (st : SGRState) (n : Nat) (rest : List Nat),
      applyLoop b (38 :: 5 :: n :: rest) st =
          applyLoop b rest { st with fgColor := .palette n } ∧
        applyLoop b (48 :: 5 :: n :: rest) st =
          applyLoop b rest { st with bgColor := .palette n }) ∧
      (∀ (b : Style) (n : Nat),
        applyANSICodes [38, 5, n] b = b.Foreground (.palette n) ∧
          applyANSICodes [48, 5, n] b = b.Background (.palette n)) ∧
      (∀ (b : Style) (st : SGRState) (p : Nat),
        applyLoop b [38, p] st = applyLoop b [p] st ∧
          applyLoop b [48, p] st = applyLoop b [p] st) ∧
      (∀ b : Style,
        parseANSI ['\x1b', '[', '3', '8', ';', '5', ';', '1', '9', '6', 'm', 'X'] b =
          [⟨['X'], b.Foreground (.palette 196)⟩]) := by
  refine ⟨fun b st n rest => ⟨applyLoop_38_full b n rest st, applyLoop_48_full b n rest st⟩,
    fun b n => ⟨?_, ?_⟩,
    fun b st p => ⟨applyLoop_38_two b p st, applyLoop_48_two b p st⟩,
    fun b => ?_⟩
  · simp [applyANSICodes, applyLoop_38_full, applyLoop_nil, Style.Foreground]
  · simp [applyANSICodes, applyLoop_48_full, applyLoop_nil, Style.Background]
  · simp [parseANSI, hasSGR, matchSGRAt, esc, isDigitSemi, parseANSIAux_cons,
      parseANSIAux_nil, applyANSICodes, applyLoop_38_full, applyLoop_nil, parseANSICodes,
      splitOnChar, digitRunToNat, Style.Foreground]


/-- Character class `[?0-9;]` of the filter regex in
`filterControlSequences`. -/
def isCSIParam (c : Char) : Bool := c = '?' || c.isDigit || c = ';'

/-- Decide whether `s` begins with a match of the filter regex
`\x1b\[[?0-9;]*[a-zA-Z]` (main.go line 406): ESC `[`, the maximal run
of `[?0-9;]` characters, then an ASCII letter.  As for the SGR regex,
no shorter run can produce a match, because the run's own characters
are never letters. -/
def matchCSIAt (s : Chars) : Option (Chars × Char × Chars) :=
  match s with
  | c1 :: c2 :: t =>
    if c1 = esc ∧ c2 = '[' then
      match t.dropWhile isCSIParam with
      | f :: r => if f.isAlpha then some (t.takeWhile isCSIParam, f, r) else none
      | [] => none
    else none
  | _ => none

theorem matchCSIAt_decomp {s params : Chars} {f : Char} {r : Chars}
    (h : matchCSIAt s = some (params, f, r)) :
    s = esc :: '[' :: (params ++ f :: r) := by
  match s with
  | [] => simp [matchCSIAt] at h
  | [c] => simp [matchCSIAt] at h
  | c1 :: c2 :: t =>
    simp only [matchCSIAt] at h
    split at h
    next hc =>
      split at h
      next c r' heq =>
        split at h
        next halpha =>
          simp only [Option.some.injEq, Prod.mk.injEq] at h
          obtain ⟨hp, hf, hr⟩ := h
          obtain ⟨h1, h2⟩ := hc
          subst h1; subst h2; subst hp; subst hf; subst hr
          have hsplit := List.takeWhile_append_dropWhile (p := isCSIParam) (l := t)
          rw [heq] at hsplit
          exact congrArg (fun x => esc :: '[' :: x) hsplit.symm
        next halpha => simp at h
      next heq => simp at h
    next hc => simp at h

theorem matchCSIAt_length {s params : Chars} {f : Char} {r : Chars}
    (h : matchCSIAt s = some (params, f, r)) :
    r.length < s.length := by
  have hd := matchCSIAt_decomp h
  subst hd
  simp only [List.length_cons, List.length_append]
  omega

/-- The allow-list test `allowed.MatchString(match)` (main.go lines
409-417), evaluated on a whole matched sequence ESC `[` params f: the
unanchored search for `\x1b\[[0-9;]*m` succeeds on such a match exactly
when the parameter run has no `?` and the final byte is `m`, since the
only ESC sits at position 0 and a `[0-9;]` prefix of params followed by
`m` forces that prefix to be all of params. -/
def sgrAllowed (params : Chars) (f : Char) : Bool :=
  params.all isDigitSemi && f = 'm'

/-- Model of `filterControlSequences` (main.go lines 404-420):
`re.ReplaceAllStringFunc` scans left to right for matches of the
general pattern and replaces each by itself when it is an allowed SGR
color code and by the empty string otherwise; text outside matches is
kept unchanged. -/
def filterControlSequences : Chars → Chars
  | [] => []
  | c :: t =>
    match h : matchCSIAt (c :: t) with
    | some (params, f, rest) =>
      (if sgrAllowed params f then esc :: '[' :: (params ++ [f]) else []) ++
        filterControlSequences rest
    | none => c :: filterControlSequences t
termination_by s => s.length
decreasing_by
  · exact matchCSIAt_length h
  · simp

theorem filter_nil : filterControlSequences [] = [] := by
  rw [filterControlSequences]

theorem filter_cons_some {c : Char} {t params : Chars} {f : Char} {rest : Chars}
    (hm : matchCSIAt (c :: t) = some (params, f, rest)) :
    filterControlSequences (c :: t) =
      (if sgrAllowed params f then esc :: '[' :: (params ++ [f]) else []) ++
        filterControlSequences rest := by
  rw [filterControlSequences]
  split
  next p' f' r' heq =>
    rw [hm] at heq
    simp only [Option.some.injEq, Prod.mk.injEq] at heq
    rw [heq.1, heq.2.1, heq.2.2]
  next heq => rw [hm] at heq; simp at heq

theorem filter_cons_none {c : Char} {t : Chars}
    (hm : matchCSIAt (c :: t) = none) :
    filterControlSequences (c :: t) = c :: filterControlSequences t := by
  rw [filterControlSequences]
  split
  next p' f' r' heq => rw [hm] at heq; simp at heq
  next heq => rfl

theorem filter_cons (c : Char) (t : Chars) :
    filterControlSequences (c :: t) =
      match matchCSIAt (c :: t) with
      | some (params, f, rest) =>
        (if sgrAllowed params f then esc :: '[' :: (params ++ [f]) else []) ++
          filterControlSequences rest
      | none => c :: filterControlSequences t := by
  cases hm : matchCSIAt (c :: t) with
  | some pr =>
    obtain ⟨p, f, r⟩ := pr
    rw [filter_cons_some hm]
  | none => rw [filter_cons_none hm]

theorem uint32_le_iff (a b : UInt32) : a ≤ b ↔ a.toNat ≤ b.toNat := by
  simp [UInt32.le_def, BitVec.le_def, UInt32.toNat]

/-- An ASCII letter is never a parameter character: the final byte of a
matched control sequence lies outside the `[?0-9;]` class. -/
theorem isAlpha_not_CSIParam {c : Char} (h : c.isAlpha = true) : isCSIParam c = false := by
  simp only [Char.isAlpha, Char.isUpper, Char.isLower, Bool.or_eq_true, Bool.and_eq_true,
    decide_eq_true_eq, ge_iff_le] at h
  have hrange : 65 ≤ c.val.toNat ∧ c.val.toNat ≤ 90 ∨ 97 ≤ c.val.toNat ∧ c.val.toNat ≤ 122 := by
    rcases h with ⟨h1, h2⟩ | ⟨h1, h2⟩
    · exact Or.inl ⟨(uint32_le_iff 65 c.val).mp h1, (uint32_le_iff c.val 90).mp h2⟩
    · exact Or.inr ⟨(uint32_le_iff 97 c.val).mp h1, (uint32_le_iff c.val 122).mp h2⟩
  have hq : decide (c = '?') ≠ true := by
    intro habs
    have hc : c = '?' := of_decide_eq_true habs
    have : c.val.toNat = 63 := by rw [hc]; rfl
    omega
  have hd : c.isDigit ≠ true := by
    intro habs
    simp only [Char.isDigit, Bool.and_eq_true, decide_eq_true_eq, ge_iff_le] at habs
    obtain ⟨h1, h2⟩ := habs
    have n1 := (uint32_le_iff 48 c.val).mp h1
    have n2 := (uint32_le_iff c.val 57).mp h2
    have e48 : (48 : UInt32).toNat = 48 := rfl
    have e57 : (57 : UInt32).toNat = 57 := rfl
    rw [e48] at n1
    rw [e57] at n2
    omega
  have hs : decide (c = ';') ≠ true := by
    intro habs
    have hc : c = ';' := of_decide_eq_true habs
    have : c.val.toNat = 59 := by rw [hc]; rfl
    omega
  simp only [isCSIParam, Bool.or_eq_false_iff]
  exact ⟨⟨Bool.eq_false_iff.mpr hq, Bool.eq_false_iff.mpr hd⟩, Bool.eq_false_iff.mpr hs⟩

theorem takeWhile_append_not (p : Char → Bool) :
    ∀ (l1 : Chars) (c : Char) (l2 : Chars), l1.all p = true → p c = false →
      (l1 ++ c :: l2).takeWhile p = l1 ∧ (l1 ++ c :: l2).dropWhile p = c :: l2 := by
  intro l1
  induction l1 with
  | nil =>
    intro c l2 _ hc
    simp [List.takeWhile_cons, List.dropWhile_cons, hc]
  | cons a l1 ih =>
    intro c l2 hall hc
    simp only [List.all_cons, Bool.and_eq_true] at hall
    obtain ⟨ha, hall⟩ := hall
    obtain ⟨ht, hd⟩ := ih c l2 hall hc
    simp [List.takeWhile_cons, List.dropWhile_cons, ha, ht, hd]

theorem all_digitSemi_imp_CSIParam (l : Chars) (h : l.all isDigitSemi = true) :
    l.all isCSIParam = true := by
  rw [List.all_eq_true] at h ⊢
  intro x hx
  have hds := h x hx
  simp only [isDigitSemi, Bool.or_eq_true, decide_eq_true_eq] at hds
  rcases hds with hd | hs
  · simp [isCSIParam, hd]
  · simp [isCSIParam, hs]

/-- An SGR color sequence is passed through verbatim by the filter. -/
theorem filter_preserves_sgr (params rest : Chars) (h : params.all isDigitSemi = true) :
    filterControlSequences (esc :: '[' :: (params ++ 'm' :: rest)) =
      esc :: '[' :: (params ++ 'm' :: filterControlSequences rest) := by
  have hCSI : params.all isCSIParam = true := all_digitSemi_imp_CSIParam params h
  obtain ⟨htake, hdrop⟩ :=
    takeWhile_append_not isCSIParam params 'm' rest hCSI (by decide)
  have hmatch : matchCSIAt (esc :: '[' :: (params ++ 'm' :: rest)) =
      some (params, 'm', rest) := by
    simp only [matchCSIAt]
    rw [hdrop, htake]
    simp
  rw [filter_cons_some hmatch]
  have hallowed : sgrAllowed params 'm' = true := by simp [sgrAllowed, h]
  rw [hallowed]
  simp

/-- A non-SGR control sequence (a `?` among the parameters, or a final
byte other than `m`) is removed entirely by the filter. -/
theorem filter_removes_nonsgr (params : Chars) (f : Char) (rest : Chars)
    (hp : params.all isCSIParam = true) (hf : f.isAlpha = true)
    (hno : '?' ∈ params ∨ f ≠ 'm') :
    filterControlSequences (esc :: '[' :: (params ++ f :: rest)) =
      filterControlSequences rest := by
  have hfc : isCSIParam f = false := isAlpha_not_CSIParam hf
  obtain ⟨htake, hdrop⟩ := takeWhile_append_not isCSIParam params f rest hp hfc
  have hmatch : matchCSIAt (esc :: '[' :: (params ++ f :: rest)) =
      some (params, f, rest) := by
    simp only [matchCSIAt]
    rw [hdrop, htake]
    simp [hf]
  rw [filter_cons_some hmatch]
  have hnotallowed : sgrAllowed params f = false := by
    cases hall : params.all isDigitSemi with
    | false => simp [sgrAllowed, hall]
    | true =>
      rcases hno with hqm | hm
      · exfalso
        have := List.all_eq_true.mp hall '?' hqm
        simp [isDigitSemi] at this
      · simp [sgrAllowed, hm]
  rw [hnotallowed]
  simp

/-- C2 — Filter allow-list: the filter removes every escape sequence of
the general form ESC `[` params final-letter except those of the SGR
form ESC `[` digits-and-semicolons `m`, which pass through verbatim; in
particular the clear-screen sequence in `"\x1b[2J\x1b[31mhi\x1b[0m"` is
removed while both SGR sequences are preserved. -/
theorem filter_allowlist :
    (∀ params rest : Chars, params.all isDigitSemi = true →
      filterControlSequences (esc :: '[' :: (params ++ 'm' :: rest)) =
        esc :: '[' :: (params ++ 'm' :: filterControlSequences rest)) ∧
      (∀ (params : Chars) (f : Char) (rest : Chars),
        params.all isCSIParam = true → f.isAlpha = true → ('?' ∈ params ∨ f ≠ 'm') →
        filterControlSequences (esc :: '[' :: (params ++ f :: rest)) =
          filterControlSequences rest) ∧
      filterControlSequences
          ['\x1b', '[', '2', 'J', '\x1b', '[', '3', '1', 'm', 'h', 'i', '\x1b', '[', '0', 'm'] =
        ['\x1b', '[', '3', '1', 'm', 'h', 'i', '\x1b', '[', '0', 'm'] := by
  refine ⟨filter_preserves_sgr, filter_removes_nonsgr, ?_⟩
  simp [filter_cons, filter_nil, matchCSIAt, esc, isCSIParam, sgrAllowed, isDigitSemi]

/-- Witness for `filter_allowlist` at concrete sequences: the SGR
sequence ESC `[31m` is kept and the cursor-visibility sequence
ESC `[?25h` is removed. -/
theorem filter_allowlist_witness :
    (['3', '1'].all isDigitSemi = true ∧
      filterControlSequences (esc :: '[' :: (['3', '1'] ++ 'm' :: ['h'])) =
        esc :: '[' :: (['3', '1'] ++ 'm' :: filterControlSequences ['h'])) ∧
      (['?', '2', '5'].all isCSIParam = true ∧ Char.isAlpha 'h' = true ∧
        '?' ∈ ['?', '2', '5'] ∧
        filterControlSequences (esc :: '[' :: (['?', '2', '5'] ++ 'h' :: [])) =
          filterControlSequences []) := by
  refine ⟨⟨by decide, filter_allowlist.1 ['3', '1'] ['h'] (by decide)⟩,
    ⟨by decide, by decide, by decide,
      filter_allowlist.2.1 ['?', '2', '5'] 'h' [] (by decide) (by decide)
        (Or.inl (by decide))⟩⟩

/-- The per-segment loop body of `addColoredOutput` and
`addColoredOutputAtBeginning` (main.go lines 1128-1137 and 1149-1158):
split the segment's text on newlines and emit the pieces in order, with
an explicit newline-marker segment between consecutive pieces, every
piece carrying the originating segment's style. -/
def explodeSegment (seg : LineSegment) : List LineSegment :=
  match splitOnChar '\n' seg.Text with
  | [] => []
  | l :: ls =>
    ⟨l, seg.Style⟩ ::
      ls.foldr (fun l2 acc => ⟨['\n'], seg.Style⟩ :: ⟨l2, seg.Style⟩ :: acc) []

/-- All segments of a decoded text, exploded in order. -/
def splitSegments (segs : List LineSegment) : List LineSegment :=
  segs.foldr (fun s acc => explodeSegment s ++ acc) []

/-- Model of `addColoredOutput` (main.go lines 1126-1139): decode the
text and append the exploded segments after the existing buffer. -/
def addColoredOutput (outputLines : List LineSegment) (text : Chars)
    (baseStyle : Style) : List LineSegment :=
  outputLines ++ splitSegments (parseANSI text baseStyle)

/-- Model of `addColoredOutputAtBeginning` (main.go lines 1141-1166):
decode the text and place the exploded segments before the existing
buffer. -/
def addColoredOutputAtBeginning (outputLines : List LineSegment) (text : Chars)
    (baseStyle : Style) : List LineSegment :=
  splitSegments (parseANSI text baseStyle) ++ outputLines

/-- A stored segment is either an explicit newline marker or free of
embedded line breaks. -/
def segOK (s : LineSegment) : Bool := s.Text = ['\n'] || !(decide ('\n' ∈ s.Text))

/-- Every segment of the list satisfies `segOK`. -/
def allSegOK (l : List LineSegment) : Bool := l.all segOK

theorem splitOnChar_ne_nil (sep : Char) (s : Chars) : splitOnChar sep s ≠ [] := by
  intro h
  cases s with
  | nil => simp [splitOnChar] at h
  | cons c t =>
    rw [splitOnChar] at h
    split at h
    · simp at h
    · split at h <;> simp at h

theorem splitOnChar_no_sep (sep : Char) :
    ∀ (s : Chars) (l : Chars), l ∈ splitOnChar sep s → sep ∉ l := by
  intro s
  induction s with
  | nil =>
    intro l hl
    simp [splitOnChar] at hl
    subst hl
    simp
  | cons c t ih =>
    intro l hl
    rw [splitOnChar] at hl
    split at hl
    · rcases List.mem_cons.mp hl with h | h
      · subst h; simp
      · exact ih l h
    · rename_i hc
      split at hl
      next hnil =>
        simp at hl
        subst hl
        intro habs
        rcases List.mem_cons.mp habs with h' | h'
        · exact hc h'.symm
        · simp at h'
      next l0 ls hsplit =>
        rcases List.mem_cons.mp hl with h | h
        · subst h
          intro habs
          rcases List.mem_cons.mp habs with h' | h'
          · exact hc h'.symm
          · exact ih l0 (by rw [hsplit]; exact List.mem_cons_self l0 ls) h'
        · exact ih l (by rw [hsplit]; exact List.mem_cons_of_mem l0 h)

theorem mem_foldr_pairs {α β : Type} (m : β) (p : α → β) :
    ∀ (ls : List α) (x : β), x ∈ ls.foldr (fun l2 acc => m :: p l2 :: acc) [] →
      x = m ∨ ∃ l ∈ ls, x = p l := by
  intro ls
  induction ls with
  | nil => simp
  | cons a as ih =>
    intro x hx
    simp only [List.foldr_cons, List.mem_cons] at hx
    rcases hx with h | h | h
    · exact Or.inl h
    · exact Or.inr ⟨a, List.mem_cons_self a as, h⟩
    · rcases ih x h with h' | ⟨l, hl, he⟩
      · exact Or.inl h'
      · exact Or.inr ⟨l, List.mem_cons_of_mem a hl, he⟩

theorem explodeSegment_ok (seg : LineSegment) :
    ∀ s ∈ explodeSegment seg, segOK s = true ∧ s.Style = seg.Style := by
  intro s hs
  unfold explodeSegment at hs
  rcases hsplit : splitOnChar '\n' seg.Text with _ | ⟨l, ls⟩
  · rw [hsplit] at hs; simp at hs
  · rw [hsplit] at hs
    have hmem : ∀ piece : Chars, piece ∈ splitOnChar '\n' seg.Text → segOK ⟨piece, seg.Style⟩ = true := by
      intro piece hp
      have hnot := splitOnChar_no_sep '\n' seg.Text piece hp
      simp [segOK, hnot]
    rcases List.mem_cons.mp hs with h | h
    · subst h
      exact ⟨hmem l (by rw [hsplit]; exact List.mem_cons_self l ls), rfl⟩
    · rcases mem_foldr_pairs ⟨['\n'], seg.Style⟩ (fun l2 => ⟨l2, seg.Style⟩) ls s h with
        h' | ⟨l2, hl2, h'⟩
      · subst h'
        exact ⟨by simp [segOK], rfl⟩
      · subst h'
        exact ⟨hmem l2 (by rw [hsplit]; exact List.mem_cons_of_mem l hl2), rfl⟩

theorem splitSegments_ok (segs : List LineSegment) :
    ∀ s ∈ splitSegments segs, segOK s = true ∧ ∃ s0 ∈ segs, s.Style = s0.Style := by
  induction segs with
  | nil => simp [splitSegments]
  | cons a as ih =>
    intro s hs
    simp only [splitSegments, List.foldr_cons] at hs
    rcases List.mem_append.mp hs with h | h
    · obtain ⟨hok, hst⟩ := explodeSegment_ok a s h
      exact ⟨hok, a, List.mem_cons_self a as, hst⟩
    · obtain ⟨hok, s0, hs0, hst⟩ := ih s h
      exact ⟨hok, s0, List.mem_cons_of_mem a hs0, hst⟩

/-- C9 — Output-sink newline splitting: every insertion (append or
prepend) splits segments containing newlines into pieces plus explicit
newline-marker segments, each piece carrying the originating segment's
style, so that if every stored segment was a newline marker or free of
line breaks before the insertion, the same holds after it. -/
theorem output_sink_newline_split (buf : List LineSegment) (text : Chars) (base : Style)
    (h : allSegOK buf = true) :
    allSegOK (addColoredOutput buf text base) = true ∧
      allSegOK (addColoredOutputAtBeginning buf text base) = true ∧
      ∀ s ∈ splitSegments (parseANSI text base),
        ∃ s0 ∈ parseANSI text base, s.Style = s0.Style := by
  have hnew : (splitSegments (parseANSI text base)).all segOK = true :=
    List.all_eq_true.mpr fun s hs => (splitSegments_ok (parseANSI text base) s hs).1
  refine ⟨?_, ?_, fun s hs => (splitSegments_ok (parseANSI text base) s hs).2⟩
  · simp only [addColoredOutput, allSegOK, List.all_append, Bool.and_eq_true]
    exact ⟨h, hnew⟩
  · simp only [addColoredOutputAtBeginning, allSegOK, List.all_append, Bool.and_eq_true]
    exact ⟨hnew, h⟩

/-- Witness for `output_sink_newline_split` on an empty buffer and a
text with an embedded newline. -/
theorem output_sink_newline_split_witness :
    allSegOK [] = true ∧
      allSegOK (addColoredOutputAtBeginning [] ['a', '\n', 'b'] styleDefault) = true :=
  ⟨rfl, (output_sink_newline_split [] ['a', '\n', 'b'] styleDefault rfl).2.1⟩

/-- Whether `needle` is a prefix of the second list. -/
def isPrefixList : Chars → Chars → Bool
  | [], _ => true
  | _ :: _, [] => false
  | a :: as, b :: bs => a = b && isPrefixList as bs

/-- Model of Go's `strings.Contains` (substring search). -/
def containsSub (needle : Chars) : Chars → Bool
  | [] => needle.isEmpty
  | c :: t => isPrefixList needle (c :: t) || containsSub needle t

/-- The whitespace class of Go's `strings.TrimSpace` / `unicode.IsSpace`
restricted to the Latin-1 range (ASCII whitespace plus NEL and NBSP);
the wider Unicode space classes do not occur in the texts of the claims
settled here. -/
def goIsSpace (c : Char) : Bool :=
  c = ' ' || c = '\t' || c = '\n' || c = '\x0B' || c = '\x0C' || c = '\r' ||
    c = '\x85' || c = '\xA0'

/-- Model of `strings.TrimSpace`: drop whitespace from both ends. -/
def trimSpace (s : Chars) : Chars :=
  ((s.dropWhile goIsSpace).reverse.dropWhile goIsSpace).reverse

/-- The sudo-prompt test of `handlePtyOutput` (main.go lines 389-392):
the filtered text contains one of the four password-prompt patterns. -/
def isSudoPrompt (text : Chars) : Bool :=
  containsSub ("[sudo] password for".toList) text ||
    containsSub ("Password:".toList) text ||
    containsSub ("password for".toList) text ||
    containsSub ("Пароль:".toList) text

/-- The retry budget of the EIO branch (main.go line 295). -/
def maxRetries : Nat := 10

def whiteStyle : Style := styleDefault.Foreground .white

def redStyle : Style := styleDefault.Foreground .red

def greenStyle : Style := styleDefault.Foreground .green

def yellowStyle : Style := styleDefault.Foreground .yellow

/-- The diagnostic inserted when the EIO retry budget is exhausted with
an empty buffer (main.go line 351). -/
def ioErrMsg : Chars := "\n[Ошибка ввода-вывода PTY]\n".toList

/-- The diagnostic for a non-transient read error (main.go line 370). -/
def ptyErrMsg (msg : Chars) : Chars :=
  "\n[Ошибка PTY: ".toList ++ msg ++ "]\n".toList

/-- The mutable state of the `handlePtyOutput` read loop: the retry
counter (main.go line 294) and the shared `outputLines` and
`sudoPrompt` fields of the Terminal. -/
structure ReaderState where
  retries : Nat
  outputLines : List LineSegment
  sudoPrompt : Chars
deriving DecidableEq, Repr

/-- One result of `ptmx.Read`: a normal chunk (err == nil), EOF or an
EIO with the pending bytes delivered alongside, the two retried error
classes, or another error.  `processExited` stands for the
`t.cmd.ProcessState != nil && t.cmd.ProcessState.Exited()` test of
main.go line 323. -/
inductive ReadEvent where
  | chunk (data : Chars)
  | endOfFile (pending : Chars)
  | ioErr (pending : Chars) (processExited : Bool)
  | tempErr
  | intrErr
  | otherErr (msg : Chars)
deriving DecidableEq, Repr

/-- One iteration of the `handlePtyOutput` read loop (main.go lines
297-402) on one read result; the returned boolean is whether the loop
continues.  The branches mirror the source: EOF inserts non-blank
pending text and breaks; EIO increments the retry counter, breaks when
the process is observed exited or pending data was processed, retries
below `maxRetries`, and otherwise breaks (inserting a diagnostic only
into an empty buffer); EAGAIN and EINTR retry unconditionally; any
other error inserts a diagnostic and breaks; a normal chunk resets the
retry counter, diverts password prompts to `sudoPrompt`, inserts
non-blank text (clearing `sudoPrompt`), and drops blank text. -/
def handlePtyStep (st : ReaderState) (ev : ReadEvent) : ReaderState × Bool :=
  match ev with
  | .chunk data =>
    let st2 : ReaderState := { st with retries := 0 }
    if data.isEmpty then (st2, true)
    else
      let text := filterControlSequences data
      if isSudoPrompt text then ({ st2 with sudoPrompt := trimSpace text }, true)
      else if trimSpace text ≠ [] then
        ({ st2 with
            outputLines := addColoredOutputAtBeginning st2.outputLines text whiteStyle,
            sudoPrompt := [] }, true)
      else (st2, true)
  | .endOfFile pending =>
    if pending.isEmpty then (st, false)
    else
      let text := filterControlSequences pending
      if trimSpace text ≠ [] then
        ({ st with
            outputLines := addColoredOutputAtBeginning st.outputLines text whiteStyle },
          false)
      else (st, false)
  | .ioErr pending processExited =>
    let st2 : ReaderState := { st with retries := st.retries + 1 }
    if processExited then (st2, false)
    else if !pending.isEmpty then
      let text := filterControlSequences pending
      if trimSpace text ≠ [] then
        ({ st2 with
            outputLines := addColoredOutputAtBeginning st2.outputLines text whiteStyle },
          false)
      else (st2, false)
    else if st2.retries < maxRetries then (st2, true)
    else if st2.outputLines.isEmpty then
      ({ st2 with
          outputLines := addColoredOutputAtBeginning st2.outputLines ioErrMsg redStyle },
        false)
    else (st2, false)
  | .tempErr => (st, true)
  | .intrErr => (st, true)
  | .otherErr msg =>
    ({ st with
        outputLines := addColoredOutputAtBeginning st.outputLines (ptyErrMsg msg) redStyle },
      false)

/-- Run the read loop over a finite schedule of read results; the
boolean is true when the loop is still running after the schedule. -/
def runReader (st : ReaderState) : List ReadEvent → ReaderState × Bool
  | [] => (st, true)
  | ev :: evs =>
    match handlePtyStep st ev with
    | (st2, true) => runReader st2 evs
    | (st2, false) => (st2, false)

theorem handlePtyStep_chunk_sudo (st : ReaderState) (data : Chars)
    (hne : data.isEmpty = false)
    (hsudo : isSudoPrompt (filterControlSequences data) = true) :
    handlePtyStep st (.chunk data) =
      ({ { st with retries := 0 } with
          sudoPrompt := trimSpace (filterControlSequences data) }, true) := by
  simp [handlePtyStep, hne, hsudo]

theorem runReader_retry_forever (st : ReaderState) :
    ∀ n : Nat, runReader st (List.replicate n .tempErr) = (st, true) ∧
      runReader st (List.replicate n .intrErr) = (st, true) := by
  intro n
  induction n with
  | zero => simp [List.replicate, runReader]
  | succ n ih =>
    constructor <;> simp [List.replicate_succ, runReader, handlePtyStep, ih.1, ih.2]

/-- C4 — counterexample to the claim as stated: twenty consecutive
"resource temporarily unavailable" read errors (twice the EIO budget of
`maxRetries = 10`) leave the reader still looping, with the retry
counter untouched and no give-up, while ten EIO errors from a fresh
state do exhaust the budget and stop the loop. -/
theorem transient_retry_counterexample :
    runReader ⟨0, [], []⟩ (List.replicate 20 .tempErr) = (⟨0, [], []⟩, true) ∧
      runReader ⟨0, [⟨['x'], whiteStyle⟩], []⟩ (List.replicate 10 (.ioErr [] false)) =
        (⟨10, [⟨['x'], whiteStyle⟩], []⟩, false) ∧
      20 > maxRetries := by
  refine ⟨by decide, by decide, by decide⟩

/-- C4 (amended) — only the "input/output error" class is retried up to
the bounded count `maxRetries = 10` (counter reset on every successful
read) and abandoned immediately when the child process is observed
exited; the "resource temporarily unavailable" and "interrupted system
call" classes are retried indefinitely with no retry bound and no exit
check. -/
theorem transient_retry (st : ReaderState) (pending data : Chars) :
    (∀ n : Nat, runReader st (List.replicate n .tempErr) = (st, true) ∧
        runReader st (List.replicate n .intrErr) = (st, true)) ∧
      handlePtyStep st (.ioErr pending true) =
        ({ st with retries := st.retries + 1 }, false) ∧
      (st.retries + 1 < maxRetries →
        handlePtyStep st (.ioErr [] false) =
          ({ st with retries := st.retries + 1 }, true)) ∧
      (¬st.retries + 1 < maxRetries →
        (handlePtyStep st (.ioErr [] false)).2 = false) ∧
      (handlePtyStep st (.chunk data)).1.retries = 0 := by
  refine ⟨runReader_retry_forever st, by simp [handlePtyStep], ?_, ?_, ?_⟩
  · intro h
    simp [handlePtyStep, h]
  · intro h
    by_cases ho : st.outputLines.isEmpty <;> simp [handlePtyStep, h, ho]
  · cases hd : data.isEmpty
    · by_cases hs : isSudoPrompt (filterControlSequences data) = true
      · simp [handlePtyStep, hd, hs]
      · by_cases hb : trimSpace (filterControlSequences data) = [] <;>
          simp [handlePtyStep, hd, hs, hb]
    · simp [handlePtyStep, hd]

/-- Witness for `transient_retry`: one EIO below the budget retries, and
the exhausted budget stops the loop. -/
theorem transient_retry_witness :
    (0 + 1 < maxRetries ∧
      handlePtyStep ⟨0, [], []⟩ (.ioErr [] false) = (⟨1, [], []⟩, true)) ∧
      (¬9 + 1 < maxRetries ∧
        (handlePtyStep ⟨9, [], []⟩ (.ioErr [] false)).2 = false) ∧
      runReader ⟨0, [], []⟩ (List.replicate 5 .tempErr) = (⟨0, [], []⟩, true) := by
  refine ⟨⟨by decide, ?_⟩, ⟨by decide, ?_⟩, ((transient_retry ⟨0, [], []⟩ [] []).1 5).1⟩
  · exact (transient_retry ⟨0, [], []⟩ [] []).2.2.1 (by decide)
  · exact (transient_retry ⟨9, [], []⟩ [] []).2.2.2.1 (by decide)

/-- C10 — counterexample to the claim as stated: a password prompt
delivered together with EOF (the pending-data path of the EOF branch,
main.go lines 302-313) is inserted into the output buffer like ordinary
output instead of being diverted to the sudo-prompt field. -/
theorem reader_discard_counterexample :
    isSudoPrompt (filterControlSequences ("Password:".toList)) = true ∧
      (handlePtyStep ⟨0, [], []⟩ (.endOfFile ("Password:".toList))).1.outputLines ≠ [] := by
  have hf : filterControlSequences ("Password:".toList) = "Password:".toList := by
    simp [filter_cons, filter_nil, matchCSIAt]
  constructor
  · rw [hf]; decide
  · simp only [handlePtyStep, hf]
    simp [addColoredOutputAtBeginning, parseANSI, hasSGR, matchSGRAt, splitSegments,
      explodeSegment, splitOnChar, trimSpace, goIsSpace]

/-- C10 (amended) — the reader silently discards a normal (error-free)
chunk when its filtered text matches a password-prompt pattern
(diverting the trimmed text to the sudo-prompt field) or when the
filtered text is blank, and discards blank pending text in the EOF
branch; a password prompt arriving in the EOF branch's pending data is
not diverted (see the counterexample). -/
theorem reader_discard (st : ReaderState) (data pending : Chars) :
    (isSudoPrompt (filterControlSequences data) = true →
      (handlePtyStep st (.chunk data)).1.outputLines = st.outputLines ∧
        (handlePtyStep st (.chunk data)).1.sudoPrompt =
          trimSpace (filterControlSequences data)) ∧
      (trimSpace (filterControlSequences data) = [] →
        (handlePtyStep st (.chunk data)).1.outputLines = st.outputLines) ∧
      (trimSpace (filterControlSequences pending) = [] →
        (handlePtyStep st (.endOfFile pending)).1.outputLines = st.outputLines) := by
  refine ⟨?_, ?_, ?_⟩
  · intro hsudo
    cases hd : data.isEmpty
    · rw [handlePtyStep_chunk_sudo st data hd hsudo]
      exact ⟨rfl, rfl⟩
    · exfalso
      rw [List.isEmpty_iff.mp hd, filter_nil] at hsudo
      exact absurd hsudo (by decide)
  · intro hblank
    cases hd : data.isEmpty
    · by_cases hs : isSudoPrompt (filterControlSequences data) = true
      · simp [handlePtyStep, hd, hs]
      · simp [handlePtyStep, hd, hs, hblank]
    · simp [handlePtyStep, hd]
  · intro hblank
    cases hd : pending.isEmpty
    · simp [handlePtyStep, hd, hblank]
    · simp [handlePtyStep, hd]

/-- Witness for `reader_discard`: a password prompt is diverted and a
whitespace-only chunk is dropped. -/
theorem reader_discard_witness :
    isSudoPrompt (filterControlSequences ("Password:".toList)) = true ∧
      (handlePtyStep ⟨0, [], []⟩ (.chunk ("Password:".toList))).1.outputLines = [] ∧
      trimSpace (filterControlSequences (" \n ".toList)) = [] ∧
      (handlePtyStep ⟨0, [], []⟩ (.chunk (" \n ".toList))).1.outputLines = [] := by
  have hf : filterControlSequences ("Password:".toList) = "Password:".toList := by
    simp [filter_cons, filter_nil, matchCSIAt]
  have hf2 : filterControlSequences (" \n ".toList) = " \n ".toList := by
    simp [filter_cons, filter_nil, matchCSIAt]
  have hsudo : isSudoPrompt (filterControlSequences ("Password:".toList)) = true := by
    rw [hf]; decide
  have hblank : trimSpace (filterControlSequences (" \n ".toList)) = [] := by
    rw [hf2]; decide
  exact ⟨hsudo, (reader_discard ⟨0, [], []⟩ ("Password:".toList) []).1 hsudo |>.1,
    hblank, (reader_discard ⟨0, [], []⟩ (" \n ".toList) []).2.1 hblank⟩

/-- Decimal digits of a positive number, accumulator style. -/
def natToStrRec (n : Nat) (acc : Chars) : Chars :=
  if h : n = 0 then acc
  else natToStrRec (n / 10) (Char.ofNat (48 + n % 10) :: acc)
termination_by n
decreasing_by exact Nat.div_lt_self (Nat.pos_of_ne_zero h) (by norm_num)

/-- Decimal representation of a natural number. -/
def natToStr (n : Nat) : Chars := if n = 0 then ['0'] else natToStrRec n []

/-- Model of `fmt.Sprintf("%d", i)` for an integer. -/
def intToStr (i : Int) : Chars :=
  if i < 0 then '-' :: natToStr i.natAbs else natToStr i.toNat

/-- The success status message (main.go line 260). -/
def successMsg : Chars := "\n[Команда завершена успешно]\n".toList

/-- The prefix of the exit-code status message (main.go line 262). -/
def exitCodeMsgPrefix : Chars := "\n[Команда завершена с кодом: ".toList

/-- The exit-code status message (main.go line 262). -/
def exitCodeMsg (n : Int) : Chars := exitCodeMsgPrefix ++ intToStr n ++ "]\n".toList

/-- The generic completed message emitted when `cmd.ProcessState` is not
populated (main.go line 267). -/
def completedMsg : Chars := "\n[Команда завершена]\n".toList

/-- The timeout status message (main.go line 271). -/
def timeoutMsg : Chars := "\n[Таймаут ожидания завершения команды]\n".toList

/-- Model of an `os.ProcessState`: `Success()` is exit code zero. -/
structure PState where
  exitCode : Int
deriving DecidableEq, Repr

/-- Outcome of the deferred wait (main.go lines 243-273): the wait
channel fires within the 5-second ceiling, with `cmd.ProcessState`
either populated or still nil, or the ceiling elapses first. -/
inductive WaitOutcome where
  | completed (ps : Option PState)
  | timedOut
deriving DecidableEq, Repr

/-- The status insertions performed by the shutdown block of
`handlePtyOutput`'s deferred function (main.go lines 251-273): exactly
one `addColoredOutputAtBeginning` call, whose message and color depend
on the wait outcome. -/
def exitStatusInsertions (o : WaitOutcome) : List (Chars × Style) :=
  match o with
  | .completed (some ps) =>
    if ps.exitCode = 0 then [(successMsg, greenStyle)]
    else [(exitCodeMsg ps.exitCode, yellowStyle)]
  | .completed none => [(completedMsg, greenStyle)]
  | .timedOut => [(timeoutMsg, redStyle)]

/-- The shared PTY-handle state seen by the two closers. -/
structure CloseState where
  ptmx : Option Nat
  closeCount : Nat
deriving DecidableEq, Repr

/-- The guarded close executed both by the process-monitor goroutine
(main.go lines 200-205) and by the reader's deferred cleanup (lines
228-239): close the PTY only when the shared handle still refers to the
one this session created, then null the shared pointer. -/
def guardedClose (handle : Nat) (s : CloseState) : CloseState :=
  if s.ptmx = some handle then { ptmx := none, closeCount := s.closeCount + 1 }
  else s

/-- C3 — counterexample to the claim as stated: when the wait completes
but `cmd.ProcessState` is not populated (this code path calls only
`os.Process.Wait`, which never fills `exec.Cmd.ProcessState`), the one
status segment is the generic completed message — none of the three
forms the claim enumerates. -/
theorem clean_shutdown_counterexample :
    ¬((exitStatusInsertions (.completed none)).map Prod.fst = [successMsg] ∨
      (∃ n : Int,
        (exitStatusInsertions (.completed none)).map Prod.fst = [exitCodeMsg n]) ∨
      (exitStatusInsertions (.completed none)).map Prod.fst = [timeoutMsg]) := by
  have hmsg : (exitStatusInsertions (.completed none)).map Prod.fst = [completedMsg] := rfl
  rw [hmsg]
  rintro (h | ⟨n, h⟩ | h)
  · exact absurd h (by decide)
  · have hc : completedMsg = exitCodeMsg n := List.cons.injEq .. ▸ (List.cons.inj h).1
    have h19 : completedMsg[19]? = (exitCodeMsg n)[19]? := by rw [hc]
    rw [show completedMsg[19]? = some ']' from rfl] at h19
    unfold exitCodeMsg at h19
    rw [List.append_assoc] at h19
    rw [List.getElem?_append] at h19
    rw [if_pos (by decide : 19 < exitCodeMsgPrefix.length)] at h19
    rw [show exitCodeMsgPrefix[19]? = some ' ' from rfl] at h19
    simp at h19
  · exact absurd h (by decide)

/-- C3 (amended) — on shutdown the guarded close (run once by the
monitor goroutine and once by the reader's deferred cleanup, in either
order) closes the PTY handle exactly once and nulls it, and the
deferred wait emits exactly one terminal-status segment: the success
message (exit code 0), the exited-with-code-N message (nonzero exit
code), the generic completed message when `cmd.ProcessState` is not
populated, or the timeout message when the wait exceeds the 5-second
ceiling. -/
theorem clean_shutdown (h : Nat) (o : WaitOutcome) :
    (guardedClose h (guardedClose h ⟨some h, 0⟩)).closeCount = 1 ∧
      (guardedClose h (guardedClose h ⟨some h, 0⟩)).ptmx = none ∧
      (exitStatusInsertions o).length = 1 ∧
      ((exitStatusInsertions o).map Prod.fst = [successMsg] ∨
        (∃ n : Int, n ≠ 0 ∧
          (exitStatusInsertions o).map Prod.fst = [exitCodeMsg n]) ∨
        (exitStatusInsertions o).map Prod.fst = [completedMsg] ∨
        (exitStatusInsertions o).map Prod.fst = [timeoutMsg]) := by
  refine ⟨by simp [guardedClose], by simp [guardedClose], ?_, ?_⟩
  · cases o with
    | completed ps =>
      cases ps with
      | none => rfl
      | some p => by_cases hz : p.exitCode = 0 <;> simp [exitStatusInsertions, hz]
    | timedOut => rfl
  · cases o with
    | timedOut => exact Or.inr (Or.inr (Or.inr rfl))
    | completed ps =>
      cases ps with
      | none => exact Or.inr (Or.inr (Or.inl rfl))
      | some p =>
        by_cases hz : p.exitCode = 0
        · exact Or.inl (by simp [exitStatusInsertions, hz])
        · exact Or.inr (Or.inl ⟨p.exitCode, hz, by simp [exitStatusInsertions, hz]⟩)

/-- The four variables appended to the inherited environment
(main.go lines 153-158). -/
def forcedEnv : List (String × String) :=
  [("TERM", "xterm-256color"), ("COLORTERM", "truecolor"),
    ("LANG", "en_US.UTF-8"), ("LC_ALL", "en_US.UTF-8")]

/-- Model of the `cmd.Env` slice built by `processPtyCommand`
(main.go lines 149-163): the inherited environment (`os.Environ()`),
then the forced variables, then the caller's custom variables
(`t.envVars`). -/
def buildEnv (inherited custom : List (String × String)) : List (String × String) :=
  inherited ++ forcedEnv ++ custom

/-- The value the child process sees for a variable: per `os/exec`, when
`cmd.Env` contains duplicate keys only the last entry for a key is
used. -/
def lookupEnv (env : List (String × String)) (k : String) : Option String :=
  ((env.filter fun p => p.1 == k).getLast?).map Prod.snd

/-- C5 — counterexample to the claim as stated: a caller-supplied custom
variable named TERM overrides the forced `TERM=xterm-256color`, because
custom variables are appended after the forced ones and the last entry
for a key wins; the forced value is therefore not effective regardless
of caller configuration. -/
theorem forced_env_counterexample :
    lookupEnv (buildEnv [] [("TERM", "dumb")]) "TERM" = some "dumb" ∧
      ("dumb" : String) ≠ "xterm-256color" := by
  constructor
  · rfl
  · decide

/-- C5 (amended) — the forced TERM, COLORTERM and UTF-8 locale variables
are always present in the constructed environment and take precedence
over inherited entries; caller-supplied custom variables are appended
last and take precedence over both inherited and forced entries, so a
forced variable is effective exactly when the caller supplies no custom
variable of the same name. -/
theorem forced_env (inherited custom : List (String × String)) (k v : String)
    (hk : (k, v) ∈ forcedEnv) :
    (k, v) ∈ buildEnv inherited custom ∧
      (custom.filter (fun p => p.1 == k) = [] →
        lookupEnv (buildEnv inherited custom) k = some v) ∧
      (∀ p : String × String,
        (custom.filter (fun q => q.1 == p.1)).getLast? = some p →
        lookupEnv (buildEnv inherited custom) p.1 = some p.2) := by
  refine ⟨?_, ?_, ?_⟩
  · unfold buildEnv
    exact List.mem_append.mpr (Or.inl (List.mem_append.mpr (Or.inr hk)))
  · intro hcust
    unfold lookupEnv buildEnv
    rw [List.filter_append, List.filter_append, hcust, List.append_nil,
      List.getLast?_append]
    have hforced : (forcedEnv.filter fun p => p.1 == k).getLast? = some (k, v) := by
      simp only [forcedEnv, List.mem_cons, List.mem_singleton, Prod.mk.injEq,
        List.not_mem_nil, or_false] at hk
      rcases hk with ⟨rfl, rfl⟩ | ⟨rfl, rfl⟩ | ⟨rfl, rfl⟩ | ⟨rfl, rfl⟩ <;> rfl
    rw [hforced]
    rfl
  · intro p hlast
    unfold lookupEnv buildEnv
    rw [List.filter_append, List.getLast?_append, hlast]
    rfl

/-- Witness for `forced_env`: the forced TERM wins over an inherited
TERM, and a custom variable wins over an inherited one. -/
theorem forced_env_witness :
    ("TERM", "xterm-256color") ∈ forcedEnv ∧
      lookupEnv (buildEnv [("TERM", "screen")] []) "TERM" = some "xterm-256color" ∧
      lookupEnv (buildEnv [("FOO", "inherited")] [("FOO", "custom")]) "FOO" =
        some "custom" := by
  have hmem : (("TERM" : String), ("xterm-256color" : String)) ∈ forcedEnv := by
    unfold forcedEnv
    exact List.mem_cons_self _ _
  refine ⟨hmem, ?_, ?_⟩
  · exact (forced_env [("TERM", "screen")] [] "TERM" "xterm-256color" hmem).2.1 rfl
  · exact (forced_env [("FOO", "inherited")] [("FOO", "custom")] "TERM" "xterm-256color"
      hmem).2.2 ("FOO", "custom") rfl

/-- Result of `pty.StartWithSize` (main.go lines 170-178): a PTY handle,
or an error message. -/
inductive PtyStartResult where
  | ok (handle : Nat)
  | fail (errMsg : Chars)
deriving DecidableEq, Repr

/-- The session fields of the Terminal touched by the launch path
(main.go lines 181-184). -/
structure SessionState where
  ptmx : Option Nat
  cmdSet : Bool
  inPtyMode : Bool
deriving DecidableEq, Repr

/-- The error segment prefix of main.go line 177. -/
def launchErrMsgPrefix : Chars := "Ошибка: ".toList

/-- Model of the launch portion of `processPtyCommand` (main.go lines
166-221): when `pty.StartWithSize` fails the function returns
immediately with a single red error segment and without touching the
session fields; on success it installs the handle, records the command
and enters PTY mode, returning no segments.  No retry exists: one call
performs exactly one launch attempt. -/
def processPtyCommand (st : SessionState) (res : PtyStartResult) :
    SessionState × List LineSegment :=
  match res with
  | .fail errMsg => (st, [⟨launchErrMsgPrefix ++ errMsg, redStyle⟩])
  | .ok handle => (⟨some handle, true, true⟩, [])

/-- C8 — Launch failure atomicity: when constructing the PTY or starting
the child fails, `processPtyCommand` returns immediately with exactly
one styled (red) error segment, leaves the session state unchanged
(`ptmx`, `cmd` and `inPtyMode` untouched — effectively still idle), and
performs no further launch attempt. -/
theorem launch_failure_atomic (st : SessionState) (errMsg : Chars) :
    (processPtyCommand st (.fail errMsg)).1 = st ∧
      (processPtyCommand st (.fail errMsg)).2 =
        [⟨launchErrMsgPrefix ++ errMsg, redStyle⟩] ∧
      ((processPtyCommand st (.fail errMsg)).2).length = 1 :=
  ⟨rfl, rfl, rfl⟩

end Termingo
